import Mathlib

/- Verification of the setup-bonsai configuration document patcher.

   This file gives a shallow embedding of:
   - the format-preserving XML round trip of util.ts (parseXml / xmlToString),
   - the package-source merge of BonsaiEnvironment.addPackageSources (bonsai.ts),
   - the manifest upsert of BonsaiEnvironment.injectPackages (bonsai.ts),
   - the typed single-result selectors of xpath-extra.ts (checkedSelect1 and friends),
   and proves or refutes the specification claims about them.

   Text is modelled as a list of characters (Str) for the round-trip layer, and as
   Lean String elsewhere.  File-system and DOM side effects are made explicit as
   event traces so that write-back ordering claims are expressible. -/

abbrev Str := List Char

def bomChar : Char := Char.ofNat 0xFEFF

def lfStr : Str := ['\n']

def crlfStr : Str := ['\r', '\n']

/-- Models the test xml.endsWith of a newline in util.parseXml. -/
def endsWithNl (s : Str) : Bool := s.getLast? == some '\n'

/-- Models the regular-expression match for a carriage-return-optional newline in
util.parseXml: scanning left to right, the first occurrence of either the two
character CRLF pair or a bare LF determines the line-ending style; when the text
has no newline the fallback argument (modelling os.EOL of the host) is used. -/
def detectEol (osEOL : Str) : Str → Str
  | [] => osEOL
  | c :: rest =>
    if c = '\n' then lfStr
    else if c = '\r' ∧ rest.head? = some '\n' then crlfStr
    else detectEol osEOL rest

/-- Models the byte-order-mark test xml.charCodeAt(0) == 0xFEFF in util.parseXml. -/
def isBomStart : Str → Bool
  | c :: _ => c == bomChar
  | [] => false

/-- The BOM-stripped text that util.parseXml hands to the DOM parser. -/
def stripBom (s : Str) : Str := if isBomStart s then s.tail else s

/-- Models String.replaceAll of the bare self-closing bracket by the space-padded
form in util.xmlToString (the compensation for xmldom issue 465). -/
def fixSelfClose : Str → Str
  | '/' :: '>' :: rest => ' ' :: '/' :: '>' :: fixSelfClose rest
  | c :: rest => c :: fixSelfClose rest
  | [] => []

/-- Models String.replaceAll of LF by CRLF in util.xmlToString. -/
def lfToCrlf : Str → Str
  | [] => []
  | c :: rest => if c = '\n' then '\r' :: '\n' :: lfToCrlf rest else c :: lfToCrlf rest

/-- XML 1.0 end-of-line normalization performed by the DOM parser (CRLF and bare
CR both become LF). -/
def normalizeEols : Str → Str
  | '\r' :: '\n' :: rest => '\n' :: normalizeEols rest
  | '\r' :: rest => '\n' :: normalizeEols rest
  | c :: rest => c :: normalizeEols rest
  | [] => []

/-- Minimal XML node tree modelling the xmldom document content for the fragment
of XML the configuration files use (xmldom is an external library, not
repository code; only the behaviour the repository relies on is modelled). -/
inductive XTree
  | elemN (name : Str) (attrs : List (Str × Str)) (children : List XTree)
  | textN (s : Str)
  | commentN (s : Str)

def serAttrs : List (Str × Str) → Str
  | [] => []
  | (k, v) :: rest => ' ' :: (k ++ '=' :: '"' :: v ++ '"' :: serAttrs rest)

/-- Models the xmldom XMLSerializer on the supported fragment: attributes double
quoted in order, childless elements written self-closing with no space before
the closing bracket (the behaviour util.xmlToString compensates for). -/
def serializeNodes : List XTree → Str
  | [] => []
  | .textN s :: rest => s ++ serializeNodes rest
  | .commentN s :: rest =>
    '<' :: '!' :: '-' :: '-' :: (s ++ '-' :: '-' :: '>' :: serializeNodes rest)
  | .elemN name attrs [] :: rest =>
    '<' :: (name ++ serAttrs attrs ++ '/' :: '>' :: serializeNodes rest)
  | .elemN name attrs (c :: cs) :: rest =>
    '<' :: (name ++ serAttrs attrs ++ '>' :: serializeNodes (c :: cs) ++
      '<' :: '/' :: (name ++ '>' :: serializeNodes rest))

def domSerialize (t : XTree) : Str := serializeNodes [t]

def isWsChar (c : Char) : Bool := c == ' ' || c == '\t' || c == '\n' || c == '\r'

def skipWs : Str → Str
  | [] => []
  | c :: rest => if isWsChar c then skipWs rest else c :: rest

def isNameChar (c : Char) : Bool := c.isAlphanum || c == '_' || c == '-' || c == '.' || c == ':'

def takeName : Str → Str × Str
  | [] => ([], [])
  | c :: rest =>
    if isNameChar c then
      let p := takeName rest
      (c :: p.1, p.2)
    else ([], c :: rest)

def takeUntilQuote (q : Char) : Str → Option (Str × Str)
  | [] => none
  | c :: rest =>
    if c = q then some ([], rest)
    else if c = '&' || c = '<' then none
    else (takeUntilQuote q rest).map fun p => (c :: p.1, p.2)

def parseAttrs : Nat → Str → Option (List (Str × Str) × Str)
  | 0, _ => none
  | fuel + 1, s =>
    match skipWs s with
    | '/' :: rest => some ([], '/' :: rest)
    | '>' :: rest => some ([], '>' :: rest)
    | s2 =>
      match takeName s2 with
      | ([], _) => none
      | (name, r1) =>
        match skipWs r1 with
        | '=' :: r2 =>
          match skipWs r2 with
          | '"' :: r3 =>
            match takeUntilQuote '"' r3 with
            | none => none
            | some (v, r4) =>
              match parseAttrs fuel r4 with
              | none => none
              | some (attrs, r5) => some ((name, v) :: attrs, r5)
          | _ => none
        | _ => none

def takeComment : Str → Option (Str × Str)
  | '-' :: '-' :: '>' :: rest => some ([], rest)
  | c :: rest => (takeComment rest).map fun p => (c :: p.1, p.2)
  | [] => none

def takeText : Str → Option (Str × Str)
  | [] => some ([], [])
  | c :: rest =>
    if c = '<' then some ([], c :: rest)
    else if c = '&' then none
    else
      match takeText rest with
      | none => none
      | some (t, r) => some (c :: t, r)

/-- Fueled recursive-descent parser for a sibling sequence of the supported XML
fragment (elements with double-quoted attributes, text without entities,
comments).  Returns the parsed nodes and the unconsumed remainder, stopping at
end of input or at a closing tag. -/
def parseNodesF : Nat → Str → Option (List XTree × Str)
  | 0, _ => none
  | fuel + 1, s =>
    match s with
    | [] => some ([], [])
    | '<' :: '/' :: rest => some ([], '<' :: '/' :: rest)
    | '<' :: '!' :: '-' :: '-' :: rest =>
      match takeComment rest with
      | none => none
      | some (c, r2) =>
        match parseNodesF fuel r2 with
        | none => none
        | some (sibs, r3) => some (.commentN c :: sibs, r3)
    | '<' :: rest =>
      match takeName rest with
      | ([], _) => none
      | (name, r1) =>
        match parseAttrs (r1.length + 1) r1 with
        | none => none
        | some (attrs, r2) =>
          match r2 with
          | '/' :: '>' :: r3 =>
            match parseNodesF fuel r3 with
            | none => none
            | some (sibs, r4) => some (.elemN name attrs [] :: sibs, r4)
          | '>' :: r3 =>
            match parseNodesF fuel r3 with
            | none => none
            | some (children, r4) =>
              match r4 with
              | '<' :: '/' :: r5 =>
                match takeName r5 with
                | (cname, r6) =>
                  match skipWs r6 with
                  | '>' :: r7 =>
                    if cname = name then
                      match parseNodesF fuel r7 with
                      | none => none
                      | some (sibs, r8) => some (.elemN name attrs children :: sibs, r8)
                    else none
                  | _ => none
              | _ => none
          | _ => none
    | _ =>
      match takeText s with
      | none => none
      | some (txt, r2) =>
        match parseNodesF fuel r2 with
        | none => none
        | some (sibs, r3) => some (.textN txt :: sibs, r3)

def isWsText : XTree → Bool
  | .textN s => s.all isWsChar
  | _ => false

/-- Models the xmldom DOMParser on the supported fragment: line endings are
normalized, the document must contain exactly one root element, and
document-level whitespace (such as a trailing newline, which the serializer
does not reproduce and which parseXml therefore records separately) is
discarded. -/
def domParse (s : Str) : Option XTree :=
  let s2 := normalizeEols s
  match parseNodesF (2 * s2.length + 4) s2 with
  | some (nodes, []) =>
    match nodes.filter (fun n => !isWsText n) with
    | [XTree.elemN name attrs children] => some (.elemN name attrs children)
    | _ => none
  | _ => none

/-- The result of util.parseXml: the parsed document plus the formatting
metadata the function records on it (hadBom, endsWithNewLine, lineEndings). -/
structure ParsedXml where
  dom : XTree
  hadBom : Bool
  endsWithNewLine : Bool
  lineEndings : Str

/-- Models util.parseXml: strip a leading BOM (recording its presence), parse
the remaining text, and record whether the stripped text ends with a newline
and which line-ending style its first newline uses (os.EOL when none). -/
def parseXml (osEOL : Str) (xml0 : Str) : Option ParsedXml :=
  (domParse (stripBom xml0)).map fun dom =>
    { dom := dom
      hadBom := isBomStart xml0
      endsWithNewLine := endsWithNl (stripBom xml0)
      lineEndings := detectEol osEOL (stripBom xml0) }

/-- The metadata-restoration tail of util.xmlToString, after the BOM has been
re-prepended: append a trailing newline when the source had one, then rewrite
every LF to CRLF when the detected line-ending style was CRLF. -/
def restoreFormatting (p : ParsedXml) (r : Str) : Str :=
  let r2 := if p.endsWithNewLine then r ++ ['\n'] else r
  if p.lineEndings = crlfStr then lfToCrlf r2 else r2

/-- Models util.xmlToString on a parsed document: serialize, pad self-closing
brackets, re-prepend the BOM when one was stripped, restore the trailing
newline, and restore CRLF line endings. -/
def xmlToString (p : ParsedXml) : Str :=
  let r := fixSelfClose (domSerialize p.dom)
  let r2 := if p.hadBom then bomChar :: r else r
  let r3 := if p.endsWithNewLine then r2 ++ ['\n'] else r2
  if p.lineEndings = crlfStr then lfToCrlf r3 else r3

/-- Concrete well-formed input for claim C1: a self-closing tag with no space
before the closing bracket. -/
def c1CexText : Str := "<a/>".data

/-- Concrete round-tripping input for claim C1: BOM, space-padded self-closing
tag, CRLF line ending. -/
def c1WitText : Str := bomChar :: "<a />\r\n".data

def c1WitDom : XTree := .elemN "a".data [] []

def c1WitParsed : ParsedXml :=
  { dom := c1WitDom, hadBom := true, endsWithNewLine := true, lineEndings := crlfStr }

/-- A NuGet package source as constructed in nuget.ts (name and url are
non-empty by construction there; allowUpdate defaults to false). -/
structure NuGetPackageSource where
  name : String
  url : String
  allowUpdate : Bool
deriving DecidableEq

/-- A child node of the packageSources container element of NuGet.config, as
addPackageSources distinguishes them: the clear marker element, an add entry
element carrying key and value attributes, a text node, a comment node, or any
other element (otherNode carries its node name). -/
inductive SNode
  | clearNode
  | addNode (key value : String)
  | textNode (s : String)
  | commentNode (s : String)
  | otherNode (nm : String)
deriving DecidableEq

/-- The fatal error kinds addPackageSources can raise (each models one throw
site in bonsai.ts). -/
inductive MergeError
  | emptySources
  | duplicateSourceName (name : String)
  | malformedContainer (nodeName : String)
  | missingSourceKey
  | updateNotAllowed (newName newUrl oldUrl : String)
deriving DecidableEq

/-- Observable side effects of addPackageSources: an insertBefore pair adding a
source entry to the in-memory tree, and the final writeFileSync of the
serialized document. -/
inductive MergeEvent
  | insertSource (name url : String)
  | writeNuGetConfig (doc : List SNode)
deriving DecidableEq

/-- Models the packageSources text() indentation sample: the first text-node
child of the container, defaulting to a newline plus four spaces. -/
def refIndent : List SNode → String
  | [] => "\n    "
  | SNode.textNode s :: _ => s
  | _ :: rest => refIndent rest

/-- Index of the last clear-marker child, the node the clear-with-last-position
selector yields (none when the container has no clear marker). -/
def lastClearIdx : List SNode → Option Nat
  | [] => none
  | n :: rest =>
    match lastClearIdx rest with
    | some i => some (i + 1)
    | none =>
      match n with
      | SNode.clearNode => some 0
      | _ => none

/-- The insertion index for new sources: the position after the last clear
marker (its next sibling, or end of container when the marker is last), or the
first-child position when no marker exists. -/
def insertIdx (cs : List SNode) : Nat :=
  match lastClearIdx cs with
  | some i => i + 1
  | none => 0

def escapeAttrChar (c : Char) : List Char :=
  if c = '&' then "&amp;".data
  else if c = '<' then "&lt;".data
  else if c = '"' then "&quot;".data
  else [c]

def escapeAttrValue (s : String) : String := String.mk (s.data.map escapeAttrChar).flatten

/-- Models util.xmlToString applied to an add entry element when it is turned
into a comment: the xmldom serialization of the element with the self-closing
space fix applied (the formatting metadata flags are absent on a bare node, so
no BOM, newline, or CRLF restoration happens). -/
def serializeAddNode (key value : String) : String :=
  "<add key=\"" ++ escapeAttrValue key ++ "\" value=\"" ++ escapeAttrValue value ++ "\" />"

/-- The insertion loop of addPackageSources: for each source in order, fail
with the duplicate error if its name was already seen, otherwise record it in
the seen map and insert an indentation copy plus the new add entry just before
the insertion point (modelled by appending to the accumulated block).  Events
record each performed in-memory insertion. -/
def insertLoop (indent : String) :
    List NuGetPackageSource → List (String × NuGetPackageSource) → List MergeEvent →
    List SNode → List MergeEvent × Except MergeError (List (String × NuGetPackageSource) × List SNode)
  | [], seen, evs, acc => (evs, .ok (seen, acc))
  | s :: rest, seen, evs, acc =>
    if (seen.lookup s.name).isSome then (evs, .error (.duplicateSourceName s.name))
    else
      insertLoop indent rest (seen ++ [(s.name, s)]) (evs ++ [.insertSource s.name s.url])
        (acc ++ [SNode.textNode indent, SNode.addNode s.name s.url])

/-- The collision walk of addPackageSources over the siblings from the
insertion point onward: non-element nodes are skipped, elements that are not
add entries are a malformed-container error, an add entry without a key is an
error, an add entry whose key names an input source either aborts the merge
(updates not allowed) or is replaced in place by a comment holding its
serialized form. -/
def collisionWalk (m : List (String × NuGetPackageSource)) : List SNode → Except MergeError (List SNode)
  | [] => .ok []
  | SNode.textNode s :: rest => (collisionWalk m rest).map (SNode.textNode s :: ·)
  | SNode.commentNode s :: rest => (collisionWalk m rest).map (SNode.commentNode s :: ·)
  | SNode.clearNode :: _ => .error (.malformedContainer "clear")
  | SNode.otherNode nm :: _ => .error (.malformedContainer nm)
  | SNode.addNode key value :: rest =>
    if key = "" then .error .missingSourceKey
    else
      match m.lookup key with
      | none => (collisionWalk m rest).map (SNode.addNode key value :: ·)
      | some s =>
        if !s.allowUpdate then .error (.updateNotAllowed s.name s.url value)
        else (collisionWalk m rest).map (SNode.commentNode (" " ++ serializeAddNode key value ++ " ") :: ·)

/-- Models BonsaiEnvironment.addPackageSources on the children of the (sole)
packageSources container: validate non-emptiness, sample the indentation,
insert the new sources at the insertion point, walk the pre-existing siblings
for collisions, and only then write the updated document back (the write is
the final event; any error aborts before it). -/
def addPackageSources (cs : List SNode) (sources : List NuGetPackageSource) :
    List MergeEvent × Except MergeError (List SNode) :=
  if sources.length < 1 then ([], .error .emptySources)
  else
    let indent := refIndent cs
    let k := insertIdx cs
    match insertLoop indent sources [] [] [] with
    | (evs, .error e) => (evs, .error e)
    | (evs, .ok (seen, block)) =>
      match collisionWalk seen (cs.drop k) with
      | .error e => (evs, .error e)
      | .ok walked =>
        let res := cs.take k ++ block ++ walked
        (evs ++ [.writeNuGetConfig res], .ok res)

/-- The association list the insertion loop builds from the inputs (Map
insertion order). -/
def sourcePairs (sources : List NuGetPackageSource) : List (String × NuGetPackageSource) :=
  sources.map fun s => (s.name, s)

/-- The block of nodes the insertion loop adds at the insertion point: each
source preceded by a copy of the sampled indentation, in input order. -/
def sourceBlock (indent : String) : List NuGetPackageSource → List SNode
  | [] => []
  | s :: rest => SNode.textNode indent :: SNode.addNode s.name s.url :: sourceBlock indent rest

/-- The insertion events of the loop, in order. -/
def insertEvents (sources : List NuGetPackageSource) : List MergeEvent :=
  sources.map fun s => .insertSource s.name s.url

def mergeWrites : List MergeEvent → Bool
  | [] => false
  | MergeEvent.writeNuGetConfig _ :: _ => true
  | _ :: rest => mergeWrites rest

/-- Replaying a merge event trace against the persisted document: only the
final writeFileSync changes the stored document. -/
def applyMergeEvents (file : List SNode) : List MergeEvent → List SNode
  | [] => file
  | MergeEvent.writeNuGetConfig d :: rest => applyMergeEvents d rest
  | _ :: rest => applyMergeEvents file rest

/-- A local NuGet package as injectPackages consumes it (identifier and the
string form of its version). -/
structure LocalNuGetPackage where
  pkgId : String
  pkgVersion : String
deriving DecidableEq

/-- A child node of the Packages container of Bonsai.config: a Package entry
element with id and optional version attributes, a text node, or another
element. -/
inductive PNode
  | pkgNode (pid : String) (ver : Option String)
  | textNode (s : String)
  | otherNode (nm : String)
deriving DecidableEq

/-- An AssemblyLocation record (assemblyName attribute may be absent). -/
structure AssemblyLocation where
  assemblyName : Option String
  location : String
deriving DecidableEq

/-- An AssemblyReference record. -/
structure AssemblyReference where
  assemblyName : String
deriving DecidableEq

/-- A LibraryFolder record. -/
structure LibraryFolder where
  folderPath : String
deriving DecidableEq

/-- The sections of Bonsai.config that injectPackages reads and mutates. -/
structure BonsaiConfig where
  packages : List PNode
  assemblyLocations : List AssemblyLocation
  assemblyReferences : List AssemblyReference
  libraryFolders : List LibraryFolder
deriving DecidableEq

/-- The fatal error kinds of injectPackages (assertion failures from the strict
assert calls; the missing-container error cannot arise in this embedding since
the container is the modelled list itself). -/
inductive InjectError
  | missingPackagesContainer
  | assertionFailed (what : String)
deriving DecidableEq

/-- Observable file-system side effects of injectPackages: recursive removal of
a replaced package directory, the warning when that directory is absent, and
the final writeFileSync of the updated document. -/
inductive InjectEvent
  | rmDir (p : String)
  | warnMissingDir (p : String)
  | writeBonsaiConfig (doc : BonsaiConfig)
deriving DecidableEq

/-- Character-wise uppercase, modelling the JavaScript toUpperCase call on the
ASCII package identifiers involved. -/
def toUpperS (s : String) : String := String.mk (s.data.map Char.toUpper)

def trChar (c : Char) : Char := if c = '\\' then '/' else c

/-- The XPath translate of backslashes to forward slashes, also used to model
String.replaceAll of backslashes in the path fragment computation. -/
def translateBs (s : String) : String := String.mk (s.data.map trChar)

/-- The replaced package directory path relative to the environment root:
path.relative(rootPath, path.join(rootPath, "Packages", id + "." + version))
with the platform separator sep. -/
def packageDirRel (sep rid rver : String) : String := "Packages" ++ sep ++ rid ++ "." ++ rver

/-- The removal path fragment injectPackages computes for a replaced package:
the root-relative directory path with backslashes replaced by forward slashes
and a trailing slash appended. -/
def replacePackagePathLocal (sep rid rver : String) : String :=
  translateBs (packageDirRel sep rid rver) ++ "/"

def listLeads : List Char → List Char → Bool
  | [], _ => true
  | _ :: _, [] => false
  | a :: as, b :: bs => a == b && listLeads as bs

/-- XPath starts-with on strings. -/
def strLeads (frag s : String) : Bool := listLeads frag.data s.data

/-- The predicate of the AssemblyLocation selector: starts-with of the
backslash-translated location attribute against the package path fragment. -/
def locMatches (frag : String) (a : AssemblyLocation) : Bool :=
  strLeads frag (translateBs a.location)

/-- The predicate of the LibraryFolder selector. -/
def folderMatches (frag : String) (f : LibraryFolder) : Bool :=
  strLeads frag (translateBs f.folderPath)

/-- The assembly name under which references of a removed AssemblyLocation are
purged: absent when the attribute is missing or empty (the falsy check in the
source skips the reference cleanup and only warns). -/
def alocRemovedName (a : AssemblyLocation) : Option String :=
  match a.assemblyName with
  | some nm => if nm = "" then none else some nm
  | none => none

/-- Removal of one selected node from its section (the DOM node identity of a
selected element corresponds to the first occurrence of its value). -/
def eraseFirst {α : Type} [DecidableEq α] (x : α) : List α → List α
  | [] => []
  | a :: rest => if a = x then rest else a :: eraseFirst x rest

/-- The cascade over AssemblyLocations and AssemblyReferences: the selector
snapshot of matching locations is walked; each is removed, and when it carries
a usable assemblyName every reference sharing that name is removed as well. -/
def cascadeAssembly (frag : String) (alocs : List AssemblyLocation)
    (arefs : List AssemblyReference) : List AssemblyLocation × List AssemblyReference :=
  (alocs.filter (locMatches frag)).foldl
    (fun pr a =>
      (eraseFirst a pr.1,
       match alocRemovedName a with
       | some nm => pr.2.filter fun r => decide (r.assemblyName ≠ nm)
       | none => pr.2))
    (alocs, arefs)

/-- The cascade over LibraryFolders: every record matching the fragment is
removed. -/
def cascadeFolders (frag : String) (lfs : List LibraryFolder) : List LibraryFolder :=
  (lfs.filter (folderMatches frag)).foldl (fun acc f => eraseFirst f acc) lfs

/-- The Package-by-id selector of injectPackages: the first Package child whose
id attribute equals the queried identifier (XPath attribute-value equality is
exact and case-sensitive; the isHtml option of the query layer only relaxes
name tests).  Returns the id and version attributes of the matched element. -/
def findPkgNode (pid : String) : List PNode → Option (String × Option String)
  | [] => none
  | PNode.pkgNode q v :: rest => if q = pid then some (q, v) else findPkgNode pid rest
  | _ :: rest => findPkgNode pid rest

/-- The Packages text() indentation sample, defaulting as in the source. -/
def refIndentP : List PNode → String
  | [] => "\n    "
  | PNode.textNode s :: _ => s
  | _ :: rest => refIndentP rest

/-- The insertion index for brand-new package entries: before the final child
when it is a text node (the closing-tag indentation), else the very end. -/
def pkgInsertIdx (ps : List PNode) : Nat :=
  match ps.getLast? with
  | some (PNode.textNode _) => ps.length - 1
  | _ => ps.length

/-- replaceChild of the injected node for the selected (first matching)
Package entry. -/
def replaceFirstPkg (pid : String) (newNode : PNode) : List PNode → List PNode
  | [] => []
  | PNode.pkgNode q v :: rest =>
    if q = pid then newNode :: rest else PNode.pkgNode q v :: replaceFirstPkg pid newNode rest
  | n :: rest => n :: replaceFirstPkg pid newNode rest

/-- The mutable state threaded through the injection loop: the on-disk package
directories, the Packages children before the insertion point, the three
cross-referencing sections, and the emitted events. -/
structure InjectState where
  disk : List String
  body : List PNode
  alocs : List AssemblyLocation
  arefs : List AssemblyReference
  lfolders : List LibraryFolder
  events : List InjectEvent
deriving DecidableEq

/-- One iteration of the injectPackages loop for one package: find an existing
entry by id; on a hit run the asserts, compute the removal paths, remove (or
warn about) the on-disk directory, replace the entry in place, and cascade the
cleanup of locations, references, and library folders; on a miss insert a new
entry (preceded by an indentation copy) at the insertion point. -/
def injectStep (sep indent : String) (tail : List PNode) (st : InjectState)
    (p : LocalNuGetPackage) : Except InjectError InjectState :=
  let injected := PNode.pkgNode p.pkgId (some p.pkgVersion)
  match findPkgNode p.pkgId (st.body ++ tail) with
  | some (rid, rver) =>
    if rid = "" then .error (.assertionFailed "replaceId")
    else
      match rver with
      | none => .error (.assertionFailed "replaceVersion")
      | some rv =>
        if rv = "" then .error (.assertionFailed "replaceVersion")
        else if toUpperS p.pkgId ≠ toUpperS rid then .error (.assertionFailed "idMatch")
        else
          let dirRel := packageDirRel sep rid rv
          let frag := replacePackagePathLocal sep rid rv
          let removeEvents :=
            if dirRel ∈ st.disk then [InjectEvent.rmDir dirRel]
            else [InjectEvent.warnMissingDir dirRel]
          let disk2 := if dirRel ∈ st.disk then eraseFirst dirRel st.disk else st.disk
          let body2 := replaceFirstPkg p.pkgId injected st.body
          let casc := cascadeAssembly frag st.alocs st.arefs
          let lfs2 := cascadeFolders frag st.lfolders
          .ok { disk := disk2, body := body2, alocs := casc.1, arefs := casc.2,
                lfolders := lfs2, events := st.events ++ removeEvents }
  | none =>
    .ok { st with body := st.body ++ [PNode.textNode indent, injected] }

/-- The injection loop over the package batch; an error aborts the remainder
but the events performed so far stand. -/
def injectLoop (sep indent : String) (tail : List PNode) :
    List LocalNuGetPackage → InjectState → InjectState × Option InjectError
  | [], st => (st, none)
  | p :: rest, st =>
    match injectStep sep indent tail st p with
    | .error e => (st, some e)
    | .ok st2 => injectLoop sep indent tail rest st2

/-- Models BonsaiEnvironment.injectPackages on the parsed Bonsai.config: split
the Packages children at the new-entry insertion point, run the loop, and only
on full success write the updated document back (the final event). -/
def injectPackages (sep : String) (disk : List String) (cfg : BonsaiConfig)
    (pkgs : List LocalNuGetPackage) : List InjectEvent × Except InjectError BonsaiConfig :=
  let idx := pkgInsertIdx cfg.packages
  let tail := cfg.packages.drop idx
  let indent := refIndentP cfg.packages
  let st0 : InjectState :=
    { disk := disk, body := cfg.packages.take idx, alocs := cfg.assemblyLocations,
      arefs := cfg.assemblyReferences, lfolders := cfg.libraryFolders, events := [] }
  match injectLoop sep indent tail pkgs st0 with
  | (st, some e) => (st.events, .error e)
  | (st, none) =>
    let cfg2 : BonsaiConfig :=
      { packages := st.body ++ tail, assemblyLocations := st.alocs,
        assemblyReferences := st.arefs, libraryFolders := st.lfolders }
    (st.events ++ [.writeBonsaiConfig cfg2], .ok cfg2)

def injectWrites : List InjectEvent → Bool
  | [] => false
  | InjectEvent.writeBonsaiConfig _ :: _ => true
  | _ :: rest => injectWrites rest

/-- Replaying an inject event trace against the persisted document: only the
final writeFileSync changes the stored document. -/
def applyInjectEvents (file : BonsaiConfig) : List InjectEvent → BonsaiConfig
  | [] => file
  | InjectEvent.writeBonsaiConfig d :: rest => applyInjectEvents d rest
  | _ :: rest => applyInjectEvents file rest

def elementNodeT : Nat := 1

def attributeNodeT : Nat := 2

def textNodeT : Nat := 3

/-- A node as seen by the query layer: only its DOM node type matters to the
typed selectors. -/
structure XNodeRef where
  nodeType : Nat
deriving DecidableEq

/-- The possible results of evaluating an XPath expression (node set in
document order, or one of the primitive result kinds). -/
inductive EvaluateResult
  | nodeSet (nodes : List XNodeRef)
  | strResult (s : String)
  | numResult (n : Int)
  | boolResult (b : Bool)
deriving DecidableEq

/-- The error kinds of checkedSelect1 in xpath-extra.ts. -/
inductive SelectError
  | notANodeSet
  | wrongNodeKind (expected got : Nat)
  | nonsensicalNode (expected : Nat)
deriving DecidableEq

/-- Models checkedSelect1 of xpath-extra.ts: reject non-node-set results, return
the no-match signal for an empty set, otherwise take the first node in document
order and check only its node type against the expected one (a node type of
zero is the nonsensical-result branch). -/
def checkedSelect1 (expected : Option Nat) (result : EvaluateResult) :
    Except SelectError (Option XNodeRef) :=
  match result with
  | .nodeSet nodes =>
    match nodes with
    | [] => .ok none
    | n :: _ =>
      match expected with
      | none => .ok (some n)
      | some t =>
        if n.nodeType = t then .ok (some n)
        else if n.nodeType ≠ 0 then .error (.wrongNodeKind t n.nodeType)
        else .error (.nonsensicalNode t)
  | _ => .error .notANodeSet

def select1Node (result : EvaluateResult) : Except SelectError (Option XNodeRef) :=
  checkedSelect1 none result

def select1Attribute (result : EvaluateResult) : Except SelectError (Option XNodeRef) :=
  checkedSelect1 (some attributeNodeT) result

def select1Element (result : EvaluateResult) : Except SelectError (Option XNodeRef) :=
  checkedSelect1 (some elementNodeT) result

def select1Text (result : EvaluateResult) : Except SelectError (Option XNodeRef) :=
  checkedSelect1 (some textNodeT) result

/-- Concrete sources container for claim C4: an add entry sits before the clear
marker. -/
def c4CexDoc : List SNode := [SNode.addNode "A" "u", SNode.clearNode]

def c4CexSources : List NuGetPackageSource := [{ name := "B", url := "v", allowUpdate := false }]

def c4CexResult : List SNode :=
  [SNode.addNode "A" "u", SNode.clearNode, SNode.textNode "\n    ", SNode.addNode "B" "v"]

/-- Concrete sources container for claim C8: the walk region holds a text node,
which is not an add-shaped entry. -/
def c8CexDoc : List SNode := [SNode.textNode "\nT"]

def c8CexSources : List NuGetPackageSource := [{ name := "A", url := "u", allowUpdate := false }]

def c8CexResult : List SNode :=
  [SNode.textNode "\nT", SNode.addNode "A" "u", SNode.textNode "\nT"]

/-- Concrete collision container for the C5 witness: one existing entry named X. -/
def c5WitDoc : List SNode := [SNode.addNode "X" "old"]

def c5WitSources : List NuGetPackageSource := [{ name := "X", url := "new", allowUpdate := true }]

def c5WitResult : List SNode :=
  [SNode.textNode "\n    ", SNode.addNode "X" "new",
   SNode.commentNode (" " ++ serializeAddNode "X" "old" ++ " ")]

/-- Duplicate-name batch for claim C6. -/
def c6CexSources : List NuGetPackageSource :=
  [{ name := "A", url := "u", allowUpdate := false },
   { name := "A", url := "v", allowUpdate := false }]

/-- Concrete manifest for claim C3: the existing entry differs from the injected
identifier only in letter case. -/
def c3CexCfg : BonsaiConfig :=
  { packages := [PNode.pkgNode "FOO" (some "1.0.0")]
    assemblyLocations := []
    assemblyReferences := []
    libraryFolders := [] }

def c3CexPkg : LocalNuGetPackage := { pkgId := "Foo", pkgVersion := "2.0.0" }

def c3CexResult : BonsaiConfig :=
  { packages := [PNode.pkgNode "FOO" (some "1.0.0"), PNode.textNode "\n    ",
                 PNode.pkgNode "Foo" (some "2.0.0")]
    assemblyLocations := []
    assemblyReferences := []
    libraryFolders := [] }

/-- Concrete manifest for claim C2: one assembly location, reference, and
library folder are keyed to the path fragment the claim expects (no Packages
segment); per the code they are keyed differently and survive. -/
def c2CexCfg : BonsaiConfig :=
  { packages := [PNode.pkgNode "Foo" (some "1.0.0")]
    assemblyLocations := [{ assemblyName := some "FooAsm", location := "Foo.1.0.0/lib/Foo.dll" }]
    assemblyReferences := [{ assemblyName := "FooAsm" }]
    libraryFolders := [{ folderPath := "Foo.1.0.0/lib" }] }

def c2CexPkg : LocalNuGetPackage := { pkgId := "Foo", pkgVersion := "2.0.0" }

/-- Concrete manifest for the C2 witness: records below the replaced package
directory (in both separator styles) and unrelated records. -/
def c2WitCfg : BonsaiConfig :=
  { packages := [PNode.pkgNode "Foo" (some "1.0.0")]
    assemblyLocations :=
      [{ assemblyName := some "FooAsm", location := "Packages\\Foo.1.0.0\\lib\\Foo.dll" },
       { assemblyName := some "BarAsm", location := "Packages/Bar.1.0.0/lib/Bar.dll" }]
    assemblyReferences := [{ assemblyName := "FooAsm" }, { assemblyName := "BarAsm" }]
    libraryFolders :=
      [{ folderPath := "Packages/Foo.1.0.0/lib" }, { folderPath := "Packages\\Bar.1.0.0\\lib" }] }

/-- Manifest whose Package entry lacks a version attribute, making the
replaceVersion assertion of injectPackages fail. -/
def c7InjCfg : BonsaiConfig :=
  { packages := [PNode.pkgNode "Foo" none]
    assemblyLocations := []
    assemblyReferences := []
    libraryFolders := [] }

def c7InjPkg : LocalNuGetPackage := { pkgId := "Foo", pkgVersion := "2.0.0" }

/-- Concrete parse input for the C9 conclusions: CRLF ending, no BOM. -/
def c9WitText : Str := "<a>x</a>\r\n".data

/-- The parse result of the C9 concrete input. -/
def c9WitParsed : ParsedXml :=
  { dom := XTree.elemN "a".data [] [XTree.textN "x".data]
    hadBom := false
    endsWithNewLine := true
    lineEndings := crlfStr }

theorem lfToCrlf_cons_ne (c : Char) (h : c ≠ '\n') (s : Str) :
    lfToCrlf (c :: s) = c :: lfToCrlf s := by
  simp [lfToCrlf, h]

theorem bomChar_ne_nl : bomChar ≠ '\n' := by decide

theorem bom_split_of_isBomStart (t : Str) (h : isBomStart t = true) :
    t = bomChar :: stripBom t := by
  cases t with
  | nil => simp [isBomStart] at h
  | cons c rest =>
    simp only [isBomStart, beq_iff_eq] at h
    subst h
    simp [stripBom, isBomStart]

theorem stripBom_of_not_bom (t : Str) (h : isBomStart t = false) : stripBom t = t := by
  simp [stripBom, h]

theorem xmlToString_as_restore (p : ParsedXml) :
    xmlToString p =
      (if p.hadBom
        then bomChar :: restoreFormatting p (fixSelfClose (domSerialize p.dom))
        else restoreFormatting p (fixSelfClose (domSerialize p.dom))) := by
  unfold xmlToString restoreFormatting
  by_cases hB : p.hadBom <;> by_cases hE : p.endsWithNewLine <;>
    by_cases hL : p.lineEndings = crlfStr <;>
      simp [hB, hE, hL, lfToCrlf_cons_ne bomChar bomChar_ne_nl, List.cons_append]

/-- Claim C1 (amended): serializing the document produced by parsing a
well-formed input text reproduces the text byte for byte whenever the
DOM-level serialization of the parsed content, after the self-closing-space
fix and the trailing-newline and line-ending restoration, equals the
BOM-stripped input (in particular, inputs whose self-closing tags already
carry the space and whose line endings are uniform); the BOM handling of
parseXml and xmlToString then restores the text exactly. -/
theorem c1_round_trip (osEOL t : Str) (p : ParsedXml)
    (hp : parseXml osEOL t = some p)
    (hser : restoreFormatting p (fixSelfClose (domSerialize p.dom)) = stripBom t) :
    xmlToString p = t := by
  rcases Option.map_eq_some'.mp hp with ⟨dom, _, hpe⟩
  rw [xmlToString_as_restore, hser]
  have hB : p.hadBom = isBomStart t := by rw [← hpe]
  rw [hB]
  by_cases hb : isBomStart t
  · rw [hb, if_pos rfl, ← bom_split_of_isBomStart t hb]
  · simp only [hb, Bool.false_eq_true, if_false]
    exact (stripBom_of_not_bom t (by simpa using hb))

/-- Claim C1 counterexample: the well-formed input with a self-closing tag and
no space before the closing bracket parses successfully but serializes with
the space added, so the round trip is not byte-exact for every well-formed
input. -/
theorem c1_round_trip_cex :
    (parseXml lfStr c1CexText).map xmlToString = some "<a />".data ∧
    "<a />".data ≠ c1CexText := by
  constructor
  · rw [show parseXml lfStr c1CexText =
        some { dom := .elemN "a".data [] [], hadBom := false,
               endsWithNewLine := false, lineEndings := lfStr } from rfl]
    rw [Option.map_some']
    have hs : serializeNodes [XTree.elemN "a".data [] []] = "<a/>".data := by
      simp [serializeNodes, serAttrs]
    simp only [xmlToString, domSerialize, hs]
    decide
  · decide

/-- Claim C1 witness: a BOM-prefixed, CRLF-terminated input in canonical
serialized form round-trips byte for byte. -/
theorem c1_round_trip_witness :
    (parseXml lfStr c1WitText).map xmlToString = some c1WitText := by
  have hs : serializeNodes [c1WitDom] = "<a/>".data := by
    simp [serializeNodes, c1WitDom, serAttrs]
  have hser : restoreFormatting c1WitParsed (fixSelfClose (domSerialize c1WitParsed.dom)) =
      stripBom c1WitText := by
    simp only [restoreFormatting, domSerialize, c1WitParsed, hs]
    decide
  have h := c1_round_trip lfStr c1WitText c1WitParsed rfl hser
  rw [show parseXml lfStr c1WitText = some c1WitParsed from rfl, Option.map_some', h]

theorem detectEol_no_nl (o : Str) (s : Str) (h : '\n' ∉ s) : detectEol o s = o := by
  induction s with
  | nil => rfl
  | cons c rest ih =>
    have hc : c ≠ '\n' := fun he => h (by simp [he])
    have hh : ¬(c = '\r' ∧ rest.head? = some '\n') := by
      rintro ⟨-, hhd⟩
      cases rest with
      | nil => simp at hhd
      | cons d r2 =>
        simp only [List.head?_cons, Option.some.injEq] at hhd
        exact h (by simp [hhd])
    simp only [detectEol, if_neg hc, if_neg hh]
    exact ih (fun hm => h (List.mem_cons_of_mem c hm))

theorem detectEol_crlf_first (o : Str) (pre rest : Str) (h : '\n' ∉ pre) :
    detectEol o (pre ++ '\r' :: '\n' :: rest) = crlfStr := by
  induction pre with
  | nil => simp [detectEol]
  | cons c pre2 ih =>
    have hc : c ≠ '\n' := fun he => h (by simp [he])
    have hh : ¬(c = '\r' ∧ (pre2 ++ '\r' :: '\n' :: rest).head? = some '\n') := by
      rintro ⟨-, hhd⟩
      cases pre2 with
      | nil => simp at hhd
      | cons d r2 =>
        simp only [List.cons_append, List.head?_cons, Option.some.injEq] at hhd
        exact h (by simp [hhd])
    simp only [List.cons_append, detectEol]
    split_ifs with h1 h2
    · exact absurd h1 hc
    · exact absurd h2 hh
    · exact ih (fun hm => h (List.mem_cons_of_mem c hm))

theorem detectEol_lf_first (o : Str) (pre rest : Str) (h : '\n' ∉ pre)
    (h2 : pre.getLast? ≠ some '\r') :
    detectEol o (pre ++ '\n' :: rest) = lfStr := by
  induction pre with
  | nil => simp [detectEol]
  | cons c pre2 ih =>
    have hc : c ≠ '\n' := fun he => h (by simp [he])
    have hh : ¬(c = '\r' ∧ (pre2 ++ '\n' :: rest).head? = some '\n') := by
      rintro ⟨hcr, hhd⟩
      cases pre2 with
      | nil => exact h2 (by simp [hcr])
      | cons d r2 =>
        simp only [List.cons_append, List.head?_cons, Option.some.injEq] at hhd
        exact h (by simp [hhd])
    simp only [List.cons_append, detectEol]
    split_ifs with hs1 hs2
    · exact absurd hs1 hc
    · exact absurd hs2 hh
    · cases pre2 with
      | nil => simp [detectEol]
      | cons d r2 =>
        refine ih (fun hm => h (List.mem_cons_of_mem c hm)) ?_
        rw [List.getLast?_cons_cons] at h2
        exact h2

/-- Claim C9 (amended): parseXml records whether the text began with a BOM
(stripping it before parsing), whether the stripped text ends with a newline,
and determines the line-ending style from the first occurrence of an LF or a
CRLF pair; when the text contains no newline the recorded style defaults to
the line-ending style of the host platform (the os.EOL argument), which
therefore varies with the platform. -/
theorem c9_parse_metadata (osEOL t : Str) (p : ParsedXml)
    (hp : parseXml osEOL t = some p) :
    p.hadBom = isBomStart t ∧
    domParse (stripBom t) = some p.dom ∧
    p.endsWithNewLine = endsWithNl (stripBom t) ∧
    p.lineEndings = detectEol osEOL (stripBom t) ∧
    ('\n' ∉ stripBom t → p.lineEndings = osEOL) ∧
    (∀ pre rest, '\n' ∉ pre → stripBom t = pre ++ '\r' :: '\n' :: rest →
      p.lineEndings = crlfStr) ∧
    (∀ pre rest, '\n' ∉ pre → pre.getLast? ≠ some '\r' →
      stripBom t = pre ++ '\n' :: rest → p.lineEndings = lfStr) := by
  rcases Option.map_eq_some'.mp hp with ⟨dom, hdom, hpe⟩
  refine ⟨by rw [← hpe], by rw [← hpe]; exact hdom, by rw [← hpe], by rw [← hpe], ?_, ?_, ?_⟩
  · intro hno
    rw [← hpe]
    exact detectEol_no_nl osEOL (stripBom t) hno
  · intro pre rest hpre heq
    rw [← hpe]
    show detectEol osEOL (stripBom t) = crlfStr
    rw [heq]
    exact detectEol_crlf_first osEOL pre rest hpre
  · intro pre rest hpre hlast heq
    rw [← hpe]
    show detectEol osEOL (stripBom t) = lfStr
    rw [heq]
    exact detectEol_lf_first osEOL pre rest hpre hlast

/-- Claim C9 counterexample: on a text with no newline at all the recorded
line-ending style equals the os.EOL of the host platform, so it is CRLF on a
Windows host and LF elsewhere, not a platform-independent neutral style. -/
theorem c9_parse_metadata_cex :
    (parseXml crlfStr "<a />".data).map (fun p => p.lineEndings) = some crlfStr ∧
    (parseXml lfStr "<a />".data).map (fun p => p.lineEndings) = some lfStr ∧
    crlfStr ≠ lfStr :=
  ⟨rfl, rfl, by decide⟩

/-- Claim C9 witness: the metadata theorem applied to a concrete CRLF-ended
input. -/
theorem c9_parse_metadata_witness :
    c9WitParsed.lineEndings = crlfStr ∧ parseXml lfStr c9WitText = some c9WitParsed :=
  ⟨(c9_parse_metadata lfStr c9WitText c9WitParsed rfl).2.2.2.2.2.1 "<a>x</a>".data []
      (by decide) (by decide), rfl⟩

theorem lookup_append {β : Type} (l1 l2 : List (String × β)) (k : String) :
    (l1 ++ l2).lookup k =
      (match l1.lookup k with
       | some v => some v
       | none => l2.lookup k) := by
  induction l1 with
  | nil => simp [List.lookup]
  | cons p rest ih =>
    obtain ⟨x, y⟩ := p
    by_cases hx : k = x
    · simp [List.lookup, hx]
    · have hb : (k == x) = false := beq_false_of_ne hx
      simp [List.lookup, hb, ih]

theorem insertLoop_ok_shape (indent : String) (srcs : List NuGetPackageSource) :
    ∀ seen evs acc m block evs2,
      insertLoop indent srcs seen evs acc = (evs2, .ok (m, block)) →
      evs2 = evs ++ insertEvents srcs ∧ m = seen ++ sourcePairs srcs ∧
        block = acc ++ sourceBlock indent srcs := by
  induction srcs with
  | nil =>
    intro seen evs acc m block evs2 h
    simp only [insertLoop, Prod.mk.injEq] at h
    obtain ⟨h1, h2⟩ := h
    obtain ⟨h2, h3⟩ := Prod.mk.injEq .. ▸ (Except.ok.inj h2)
    simp [← h1, ← h2, ← h3, insertEvents, sourcePairs, sourceBlock]
  | cons s rest ih =>
    intro seen evs acc m block evs2 h
    simp only [insertLoop] at h
    by_cases hl : (seen.lookup s.name).isSome
    · rw [if_pos hl] at h
      simp at h
    · rw [if_neg hl] at h
      obtain ⟨h1, h2, h3⟩ := ih _ _ _ _ _ _ h
      refine ⟨?_, ?_, ?_⟩ <;>
        simp [h1, h2, h3, insertEvents, sourcePairs, sourceBlock, List.append_assoc]

theorem insertLoop_ok_of_nodup (indent : String) (srcs : List NuGetPackageSource) :
    ∀ seen evs acc,
      ((srcs.map fun s => s.name).Nodup) →
      (∀ s ∈ srcs, seen.lookup s.name = none) →
      insertLoop indent srcs seen evs acc =
        (evs ++ insertEvents srcs,
         .ok (seen ++ sourcePairs srcs, acc ++ sourceBlock indent srcs)) := by
  induction srcs with
  | nil =>
    intro seen evs acc _ _
    simp [insertLoop, insertEvents, sourcePairs, sourceBlock]
  | cons s rest ih =>
    intro seen evs acc hnd hdisj
    have hl : seen.lookup s.name = none := hdisj s (by simp)
    have hl2 : ¬ (seen.lookup s.name).isSome = true := by simp [hl]
    simp only [insertLoop, if_neg hl2]
    rw [ih (seen ++ [(s.name, s)]) _ _ ((List.nodup_cons.mp hnd).2) ?_]
    · refine congrArg₂ Prod.mk ?_ (congrArg Except.ok (congrArg₂ Prod.mk ?_ ?_)) <;>
        simp [insertEvents, sourcePairs, sourceBlock, List.append_assoc]
    · intro x hx
      rw [lookup_append]
      have hxn : x.name ≠ s.name := by
        intro he
        have hm1 : s.name ∈ rest.map (fun s => s.name) := List.mem_map.mpr ⟨x, hx, he⟩
        exact (List.nodup_cons.mp hnd).1 hm1
      rw [hdisj x (List.mem_cons_of_mem s hx)]
      simp [List.lookup, beq_false_of_ne hxn]

theorem insertLoop_events (indent : String) (srcs : List NuGetPackageSource) :
    ∀ seen evs acc,
      mergeWrites (insertLoop indent srcs seen evs acc).1 = mergeWrites evs := by
  induction srcs with
  | nil => intro seen evs acc; rfl
  | cons s rest ih =>
    intro seen evs acc
    simp only [insertLoop]
    by_cases hl : (seen.lookup s.name).isSome
    · rw [if_pos hl]
    · rw [if_neg hl, ih]
      induction evs with
      | nil => rfl
      | cons e r2 ih2 =>
        cases e with
        | insertSource a b => simpa [mergeWrites] using ih2
        | writeNuGetConfig d => simp [mergeWrites]

theorem applyMergeEvents_of_no_write (evs : List MergeEvent) (h : mergeWrites evs = false) :
    ∀ file, applyMergeEvents file evs = file := by
  induction evs with
  | nil => intro file; rfl
  | cons e rest ih =>
    intro file
    cases e with
    | insertSource a b => exact ih (by simpa [mergeWrites] using h) file
    | writeNuGetConfig d => simp [mergeWrites] at h

theorem insertLoop_dup (indent : String) (srcs : List NuGetPackageSource) :
    ∀ seen evs acc,
      (¬ (srcs.map fun s => s.name).Nodup ∨ ∃ s ∈ srcs, (seen.lookup s.name).isSome) →
      ∃ n evs2, insertLoop indent srcs seen evs acc = (evs2, .error (.duplicateSourceName n)) := by
  induction srcs with
  | nil =>
    intro seen evs acc h
    rcases h with h | ⟨s, hs, _⟩
    · exact absurd List.nodup_nil h
    · exact absurd hs (List.not_mem_nil s)
  | cons s rest ih =>
    intro seen evs acc h
    by_cases hl : (seen.lookup s.name).isSome
    · exact ⟨s.name, evs, by simp [insertLoop, hl]⟩
    · have hnone : seen.lookup s.name = none := Option.not_isSome_iff_eq_none.mp hl
      refine Exists.imp (fun n hn => ?_) (ih (seen ++ [(s.name, s)]) (evs ++ [.insertSource s.name s.url])
        (acc ++ [SNode.textNode indent, SNode.addNode s.name s.url]) ?_)
      · obtain ⟨evs2, he⟩ := hn
        exact ⟨evs2, by simp only [insertLoop, if_neg hl]; exact he⟩
      · rcases h with hnd | ⟨x, hx, hxs⟩
        · by_cases hmem : s.name ∈ rest.map (fun s => s.name)
          · obtain ⟨x, hxr, hxn⟩ := List.mem_map.mp hmem
            refine Or.inr ⟨x, hxr, ?_⟩
            rw [lookup_append, hxn, hnone]
            simp [List.lookup]
          · left
            intro hnd2
            exact hnd (List.nodup_cons.mpr ⟨hmem, hnd2⟩)
        · rcases List.mem_cons.mp hx with rfl | hxr
          · exact absurd hxs hl
          · refine Or.inr ⟨x, hxr, ?_⟩
            rw [lookup_append]
            rcases hx2 : seen.lookup x.name with _ | v
            · exact absurd (hx2 ▸ hxs) (by simp)
            · rfl

theorem collisionWalk_append_ok (m : List (String × NuGetPackageSource)) (a : List SNode) :
    ∀ b pw, collisionWalk m a = .ok pw →
      collisionWalk m (a ++ b) = (collisionWalk m b).map (pw ++ ·) := by
  induction a with
  | nil =>
    intro b pw h
    simp only [collisionWalk] at h
    cases h
    simp only [List.nil_append]
    cases hw : collisionWalk m b <;> simp [Except.map]
  | cons n rest ih =>
    intro b pw h
    cases n with
    | clearNode => simp [collisionWalk] at h
    | otherNode nm => simp [collisionWalk] at h
    | textNode s =>
      simp only [collisionWalk] at h
      rcases hr : collisionWalk m rest with e | pw2
      · rw [hr] at h
        simp [Except.map] at h
      · rw [hr] at h
        simp only [Except.map] at h
        cases h
        cases hw : collisionWalk m b <;>
          simp [collisionWalk, ih b pw2 hr, hw, Except.map]
    | commentNode s =>
      simp only [collisionWalk] at h
      rcases hr : collisionWalk m rest with e | pw2
      · rw [hr] at h
        simp [Except.map] at h
      · rw [hr] at h
        simp only [Except.map] at h
        cases h
        cases hw : collisionWalk m b <;>
          simp [collisionWalk, ih b pw2 hr, hw, Except.map]
    | addNode key value =>
      simp only [collisionWalk] at h
      by_cases hk : key = ""
      · rw [if_pos hk] at h
        simp at h
      · rw [if_neg hk] at h
        rcases hm : m.lookup key with _ | s
        · rw [hm] at h
          rcases hr : collisionWalk m rest with e | pw2
          · rw [hr] at h
            simp [Except.map] at h
          · rw [hr] at h
            simp only [Except.map] at h
            cases h
            cases hw : collisionWalk m b <;>
              simp [collisionWalk, hk, hm, ih b pw2 hr, hw, Except.map]
        · simp only [hm] at h
          by_cases hu : s.allowUpdate
          · rw [if_neg (by simp [hu])] at h
            rcases hr : collisionWalk m rest with e | pw2
            · rw [hr] at h
              simp [Except.map] at h
            · rw [hr] at h
              simp only [Except.map] at h
              cases h
              cases hw : collisionWalk m b <;>
                simp [collisionWalk, hk, hm, hu, ih b pw2 hr, hw, Except.map]
          · rw [if_pos (by simp [hu])] at h
            simp at h

theorem addPackageSources_reduce (cs : List SNode) (srcs : List NuGetPackageSource)
    (hne : srcs ≠ []) (hnd : (srcs.map fun s => s.name).Nodup) :
    addPackageSources cs srcs =
      (match collisionWalk (sourcePairs srcs) (cs.drop (insertIdx cs)) with
       | .error e => (insertEvents srcs, .error e)
       | .ok walked =>
         (insertEvents srcs ++
            [.writeNuGetConfig (cs.take (insertIdx cs) ++ sourceBlock (refIndent cs) srcs ++ walked)],
          .ok (cs.take (insertIdx cs) ++ sourceBlock (refIndent cs) srcs ++ walked))) := by
  have hlen : ¬ srcs.length < 1 := by
    cases srcs with
    | nil => exact absurd rfl hne
    | cons a l => simp
  simp only [addPackageSources, if_neg hlen,
    insertLoop_ok_of_nodup (refIndent cs) srcs [] [] [] hnd (fun s _ => rfl),
    List.nil_append]

/-- Claim C4 (amended): for a Merge call on a document with exactly one sources
container, the insertion point is the position after the last clear marker (end
of container when the marker is last) or the first-child position when no
marker exists; after a successful merge the result is the unchanged nodes
before the insertion point (the clear marker and everything before it,
including any entries there), then the new source entries in input order, each
preceded by a copy of the sampled indentation text node, then the walked
pre-existing siblings; the new entries therefore precede every pre-existing
entry at or after the insertion point, though not entries located before the
clear marker. -/
theorem c4_merge_insertion (cs : List SNode) (srcs : List NuGetPackageSource)
    (evs : List MergeEvent) (res : List SNode)
    (h : addPackageSources cs srcs = (evs, .ok res)) :
    (∃ walked, collisionWalk (sourcePairs srcs) (cs.drop (insertIdx cs)) = .ok walked ∧
      res = cs.take (insertIdx cs) ++ sourceBlock (refIndent cs) srcs ++ walked) ∧
    (∀ i, lastClearIdx cs = some i → insertIdx cs = i + 1) ∧
    (lastClearIdx cs = none → insertIdx cs = 0) := by
  refine ⟨?_, fun i hi => by simp [insertIdx, hi], fun hn => by simp [insertIdx, hn]⟩
  by_cases hlen : srcs.length < 1
  · simp only [addPackageSources, if_pos hlen] at h
    simp at h
  · simp only [addPackageSources, if_neg hlen] at h
    rcases hil : insertLoop (refIndent cs) srcs [] [] [] with ⟨evs1, r1⟩
    cases r1 with
    | error e =>
      simp only [hil] at h
      simp at h
    | ok pr =>
      obtain ⟨m, block⟩ := pr
      obtain ⟨h1, h2, h3⟩ := insertLoop_ok_shape (refIndent cs) srcs [] [] [] m block evs1 hil
      rw [List.nil_append] at h2 h3
      subst h2
      subst h3
      simp only [hil] at h
      rcases hw : collisionWalk (sourcePairs srcs) (cs.drop (insertIdx cs)) with e | walked
      · simp only [hw] at h
        simp at h
      · simp only [hw] at h
        simp only [Prod.mk.injEq, Except.ok.injEq] at h
        exact ⟨walked, rfl, h.2.symm⟩

/-- Claim C4 counterexample: with an add entry before the clear marker, the
merged document keeps that pre-existing entry in front of the newly inserted
one, so the new entries do not appear before all pre-existing entries. -/
theorem c4_merge_insertion_cex :
    addPackageSources c4CexDoc c4CexSources =
      ([MergeEvent.insertSource "B" "v", MergeEvent.writeNuGetConfig c4CexResult],
       .ok c4CexResult) ∧
    c4CexResult[0]? = some (SNode.addNode "A" "u") ∧
    c4CexResult[3]? = some (SNode.addNode "B" "v") :=
  ⟨rfl, rfl, rfl⟩

/-- Claim C4 witness: the insertion-point characterization applied to a
container whose only child is the clear marker. -/
theorem c4_merge_insertion_witness : insertIdx [SNode.clearNode] = 1 :=
  (c4_merge_insertion [SNode.clearNode] c4CexSources
      [MergeEvent.insertSource "B" "v",
       MergeEvent.writeNuGetConfig
         [SNode.clearNode, SNode.textNode "\n    ", SNode.addNode "B" "v"]]
      [SNode.clearNode, SNode.textNode "\n    ", SNode.addNode "B" "v"] rfl).2.1 0 rfl

/-- Claim C5: when the walk from the insertion point reaches (without an
earlier error) a pre-existing add entry whose key names an input source, the
merge fails with the update-not-allowed error naming the conflicting URL if
that source does not allow updates; otherwise the old entry is replaced in
place by an XML comment holding its serialized form, and the newly inserted
entry (inside the block preceding the walked region) appears before the
commented-out old one. -/
theorem c5_collision_handling (cs : List SNode) (srcs : List NuGetPackageSource)
    (pre rest : List SNode) (key value : String) (s : NuGetPackageSource) (pw : List SNode)
    (hnd : (srcs.map fun s => s.name).Nodup)
    (hsuf : cs.drop (insertIdx cs) = pre ++ SNode.addNode key value :: rest)
    (hkey : key ≠ "")
    (hlook : (sourcePairs srcs).lookup key = some s)
    (hpre : collisionWalk (sourcePairs srcs) pre = .ok pw) :
    (s.allowUpdate = false →
      (addPackageSources cs srcs).2 = .error (.updateNotAllowed s.name s.url value)) ∧
    (s.allowUpdate = true → ∀ rw2, collisionWalk (sourcePairs srcs) rest = .ok rw2 →
      (addPackageSources cs srcs).2 =
        .ok (cs.take (insertIdx cs) ++ sourceBlock (refIndent cs) srcs ++ pw ++
          SNode.commentNode (" " ++ serializeAddNode key value ++ " ") :: rw2)) := by
  have hne : srcs ≠ [] := by
    intro he
    rw [he] at hlook
    simp [sourcePairs, List.lookup] at hlook
  have hred := addPackageSources_reduce cs srcs hne hnd
  constructor
  · intro hupd
    have hwalk : collisionWalk (sourcePairs srcs) (cs.drop (insertIdx cs)) =
        .error (.updateNotAllowed s.name s.url value) := by
      rw [hsuf,
        collisionWalk_append_ok (sourcePairs srcs) pre (SNode.addNode key value :: rest) pw hpre]
      simp [collisionWalk, hkey, hlook, hupd, Except.map]
    rw [hred, hwalk]
  · intro hupd rw2 hrest
    have hwalk : collisionWalk (sourcePairs srcs) (cs.drop (insertIdx cs)) =
        .ok (pw ++ SNode.commentNode (" " ++ serializeAddNode key value ++ " ") :: rw2) := by
      rw [hsuf,
        collisionWalk_append_ok (sourcePairs srcs) pre (SNode.addNode key value :: rest) pw hpre]
      simp [collisionWalk, hkey, hlook, hupd, hrest, Except.map]
    rw [hred, hwalk]
    simp [List.append_assoc]

/-- Claim C5 witness: merging a source named X with updates allowed into a
container already holding an entry named X yields the new entry followed by
the commented-out old entry. -/
theorem c5_collision_handling_witness :
    (addPackageSources c5WitDoc c5WitSources).2 = .ok c5WitResult := by
  have h := (c5_collision_handling c5WitDoc c5WitSources [] [] "X" "old"
      { name := "X", url := "new", allowUpdate := true } [] (by decide) rfl (by decide)
      rfl rfl).2 rfl [] rfl
  exact h

/-- Claim C6 (amended): a sources batch with a repeated name makes the merge
fail with the duplicate-source-name error and abort before write-back, so the
persisted document is untouched; the error is raised inside the insertion
loop, after the sources preceding the duplicate have already been inserted
into the in-memory tree, not before all mutation of that tree. -/
theorem c6_duplicate_names (cs : List SNode) (srcs : List NuGetPackageSource)
    (hdup : ¬ (srcs.map fun s => s.name).Nodup) :
    (∃ n, (addPackageSources cs srcs).2 = .error (.duplicateSourceName n)) ∧
    ∀ file, applyMergeEvents file (addPackageSources cs srcs).1 = file := by
  have hlen : ¬ srcs.length < 1 := by
    cases srcs with
    | nil => simp at hdup
    | cons a l => simp
  obtain ⟨n, evs2, hil⟩ := insertLoop_dup (refIndent cs) srcs [] [] [] (Or.inl hdup)
  constructor
  · refine ⟨n, ?_⟩
    simp only [addPackageSources, if_neg hlen, hil]
  · intro file
    have hw : mergeWrites (addPackageSources cs srcs).1 = false := by
      simp only [addPackageSources, if_neg hlen, hil]
      have h2 := insertLoop_events (refIndent cs) srcs [] [] []
      rw [hil] at h2
      simpa using h2
    exact applyMergeEvents_of_no_write _ hw file

/-- Claim C6 counterexample: with two sources both named A, the first source is
inserted into the in-memory tree (the insertSource event) before the duplicate
is detected, so the failure does not come before all mutation is attempted; no
write-back event occurs. -/
theorem c6_duplicate_names_cex :
    addPackageSources [] c6CexSources =
      ([MergeEvent.insertSource "A" "u"], .error (.duplicateSourceName "A")) := rfl

/-- Claim C6 witness: the duplicate theorem applied to the concrete duplicate
batch leaves any persisted document unchanged. -/
theorem c6_duplicate_names_witness :
    applyMergeEvents c4CexDoc (addPackageSources [] c6CexSources).1 = c4CexDoc :=
  (c6_duplicate_names [] c6CexSources (by decide)).2 c4CexDoc

/-- Claim C8 (amended): an element sibling in the walk region that is not an
add entry makes the merge fail with the malformed-container error naming it,
provided the walk reaches it without an earlier error; non-element siblings
(text and comment nodes) are skipped rather than reported. -/
theorem c8_malformed_walk (cs : List SNode) (srcs : List NuGetPackageSource)
    (pre rest : List SNode) (nm : String) (pw : List SNode)
    (hne : srcs ≠ []) (hnd : (srcs.map fun s => s.name).Nodup)
    (hsuf : cs.drop (insertIdx cs) = pre ++ SNode.otherNode nm :: rest)
    (hpre : collisionWalk (sourcePairs srcs) pre = .ok pw) :
    (addPackageSources cs srcs).2 = .error (.malformedContainer nm) := by
  have hred := addPackageSources_reduce cs srcs hne hnd
  have hwalk : collisionWalk (sourcePairs srcs) (cs.drop (insertIdx cs)) =
      .error (.malformedContainer nm) := by
    rw [hsuf,
      collisionWalk_append_ok (sourcePairs srcs) pre (SNode.otherNode nm :: rest) pw hpre]
    simp [collisionWalk, Except.map]
  rw [hred, hwalk]

/-- Claim C8 counterexample: a text node sits in the walk region and is not an
add-shaped entry, yet the merge succeeds instead of failing with the
malformed-container error. -/
theorem c8_malformed_walk_cex :
    addPackageSources c8CexDoc c8CexSources =
      ([MergeEvent.insertSource "A" "u", MergeEvent.writeNuGetConfig c8CexResult],
       .ok c8CexResult) := rfl

/-- Claim C8 witness: a non-add element in the walk region does abort the merge
with the malformed-container error. -/
theorem c8_malformed_walk_witness :
    (addPackageSources [SNode.otherNode "bogus"] c8CexSources).2 =
      .error (.malformedContainer "bogus") :=
  c8_malformed_walk [SNode.otherNode "bogus"] c8CexSources [] [] "bogus" []
    (by decide) (by decide) rfl rfl

theorem injectWrites_append (a b : List InjectEvent) :
    injectWrites (a ++ b) = (injectWrites a || injectWrites b) := by
  induction a with
  | nil => rfl
  | cons e rest ih => cases e <;> simp [injectWrites, ih]

theorem injectStep_writes (sep indent : String) (tail : List PNode) (st : InjectState)
    (p : LocalNuGetPackage) (st2 : InjectState) (h : injectStep sep indent tail st p = .ok st2) :
    injectWrites st2.events = injectWrites st.events := by
  simp only [injectStep] at h
  repeat' split at h
  all_goals cases h
  all_goals first
    | rfl
    | (simp only [injectWrites_append]
       simp [injectWrites])

theorem injectLoop_writes (sep indent : String) (tail : List PNode)
    (pkgs : List LocalNuGetPackage) : ∀ st,
    injectWrites (injectLoop sep indent tail pkgs st).1.events = injectWrites st.events := by
  induction pkgs with
  | nil => intro st; rfl
  | cons p rest ih =>
    intro st
    simp only [injectLoop]
    rcases hs : injectStep sep indent tail st p with e | st2
    · rfl
    · rw [ih st2, injectStep_writes sep indent tail st p st2 hs]

theorem applyInjectEvents_of_no_write (evs : List InjectEvent) (h : injectWrites evs = false) :
    ∀ file, applyInjectEvents file evs = file := by
  induction evs with
  | nil => intro file; rfl
  | cons e rest ih =>
    intro file
    cases e with
    | rmDir a => exact ih (by simpa [injectWrites] using h) file
    | warnMissingDir a => exact ih (by simpa [injectWrites] using h) file
    | writeBonsaiConfig d => simp [injectWrites] at h

theorem merge_error_no_write (cs : List SNode) (srcs : List NuGetPackageSource)
    (evs : List MergeEvent) (e : MergeError)
    (h : addPackageSources cs srcs = (evs, .error e)) : mergeWrites evs = false := by
  by_cases hlen : srcs.length < 1
  · simp only [addPackageSources, if_pos hlen] at h
    injection h with h1 h2
    rw [← h1]
    rfl
  · simp only [addPackageSources, if_neg hlen] at h
    rcases hil : insertLoop (refIndent cs) srcs [] [] [] with ⟨evs1, r1⟩
    have hev : mergeWrites evs1 = false := by
      have h2 := insertLoop_events (refIndent cs) srcs [] [] []
      rw [hil] at h2
      simpa using h2
    cases r1 with
    | error e1 =>
      simp only [hil] at h
      injection h with h1 h2
      rw [← h1]
      exact hev
    | ok pr =>
      obtain ⟨m, block⟩ := pr
      simp only [hil] at h
      rcases hw : collisionWalk m (cs.drop (insertIdx cs)) with e2 | walked
      · simp only [hw] at h
        injection h with h1 h2
        rw [← h1]
        exact hev
      · simp only [hw] at h
        simp at h

theorem inject_error_no_write (sep : String) (disk : List String) (cfg : BonsaiConfig)
    (pkgs : List LocalNuGetPackage) (evs : List InjectEvent) (e : InjectError)
    (h : injectPackages sep disk cfg pkgs = (evs, .error e)) : injectWrites evs = false := by
  simp only [injectPackages] at h
  rcases hloop : injectLoop sep (refIndentP cfg.packages)
      (cfg.packages.drop (pkgInsertIdx cfg.packages)) pkgs
      { disk := disk, body := cfg.packages.take (pkgInsertIdx cfg.packages),
        alocs := cfg.assemblyLocations, arefs := cfg.assemblyReferences,
        lfolders := cfg.libraryFolders, events := [] } with ⟨st, oe⟩
  have hev : injectWrites st.events = false := by
    have h2 := injectLoop_writes sep (refIndentP cfg.packages)
      (cfg.packages.drop (pkgInsertIdx cfg.packages)) pkgs
      { disk := disk, body := cfg.packages.take (pkgInsertIdx cfg.packages),
        alocs := cfg.assemblyLocations, arefs := cfg.assemblyReferences,
        lfolders := cfg.libraryFolders, events := [] }
    rw [hloop] at h2
    simpa using h2
  cases oe with
  | none =>
    simp only [hloop] at h
    simp at h
  | some e2 =>
    simp only [hloop] at h
    injection h with h1 h2
    rw [← h1]
    exact hev

/-- Claim C7: every fatal error raised during a Merge (addPackageSources) or
Upsert (injectPackages) call aborts the call before write-back, so replaying
the emitted side effects against the persisted document leaves it byte
identical to its state before the call; only the final write event (absent on
every error path) changes the stored document. -/
theorem c7_abort_before_write :
    (∀ cs srcs evs e, addPackageSources cs srcs = (evs, .error e) →
      ∀ file, applyMergeEvents file evs = file) ∧
    (∀ sep disk cfg pkgs evs e, injectPackages sep disk cfg pkgs = (evs, .error e) →
      ∀ file, applyInjectEvents file evs = file) :=
  ⟨fun cs srcs evs e h file =>
      applyMergeEvents_of_no_write evs (merge_error_no_write cs srcs evs e h) file,
   fun sep disk cfg pkgs evs e h file =>
      applyInjectEvents_of_no_write evs (inject_error_no_write sep disk cfg pkgs evs e h) file⟩

/-- Claim C7 witness: the no-write-on-error guarantee applied to a concrete
failing Merge call (an empty batch) and a concrete failing Upsert call (a
Package entry without a version attribute). -/
theorem c7_abort_before_write_witness :
    applyMergeEvents c8CexDoc ([] : List MergeEvent) = c8CexDoc ∧
    applyInjectEvents c7InjCfg ([] : List InjectEvent) = c7InjCfg :=
  ⟨c7_abort_before_write.1 [] [] [] .emptySources rfl c8CexDoc,
   c7_abort_before_write.2 "/" [] c7InjCfg [c7InjPkg] [] (.assertionFailed "replaceVersion")
     rfl c7InjCfg⟩

/-- Claim C10: a typed single-result selector evaluated against a node set with
more than one match silently takes the first node in document order: the
checked selection on a multi-node set equals the selection on the singleton of
its first node, so only the first node's kind is validated and additional
matches of any kind are never reported as an error; in particular
select1Element returns the first node whenever that node is an element. -/
theorem c10_select1_first_only (expected : Option Nat) (n : XNodeRef) (rest : List XNodeRef) :
    checkedSelect1 expected (.nodeSet (n :: rest)) = checkedSelect1 expected (.nodeSet [n]) ∧
    (n.nodeType = elementNodeT → select1Element (.nodeSet (n :: rest)) = .ok (some n)) := by
  constructor
  · rfl
  · intro hn
    simp [select1Element, checkedSelect1, hn]

/-- Claim C10 witness: a three-node result set (two elements and a text node)
selects the first element without error. -/
theorem c10_select1_first_only_witness :
    select1Element (.nodeSet [⟨1⟩, ⟨1⟩, ⟨3⟩]) = .ok (some ⟨1⟩) :=
  (c10_select1_first_only (some elementNodeT) ⟨1⟩ [⟨1⟩, ⟨3⟩]).2 rfl

/-- Claim C3 (amended): the existing manifest entry to replace is located by
comparing the id attribute value exactly (XPath attribute-value equality is
case-sensitive; the query layer's HTML hint only relaxes name tests), so when
no entry carries the identical id — in particular when an entry differs from
the injected id only in letter case — nothing is replaced: a new entry,
preceded by an indentation copy, is inserted alongside at the new-entry
insertion point and every other section is unchanged. -/
theorem c3_upsert_identity (sep : String) (disk : List String) (cfg : BonsaiConfig)
    (p : LocalNuGetPackage)
    (hnone : findPkgNode p.pkgId cfg.packages = none) :
    injectPackages sep disk cfg [p] =
      ([InjectEvent.writeBonsaiConfig
          (BonsaiConfig.mk
            ((cfg.packages.take (pkgInsertIdx cfg.packages) ++
              [PNode.textNode (refIndentP cfg.packages),
               PNode.pkgNode p.pkgId (some p.pkgVersion)]) ++
              cfg.packages.drop (pkgInsertIdx cfg.packages))
            cfg.assemblyLocations cfg.assemblyReferences cfg.libraryFolders)],
       .ok (BonsaiConfig.mk
            ((cfg.packages.take (pkgInsertIdx cfg.packages) ++
              [PNode.textNode (refIndentP cfg.packages),
               PNode.pkgNode p.pkgId (some p.pkgVersion)]) ++
              cfg.packages.drop (pkgInsertIdx cfg.packages))
            cfg.assemblyLocations cfg.assemblyReferences cfg.libraryFolders)) := by
  have hfind : findPkgNode p.pkgId (cfg.packages.take (pkgInsertIdx cfg.packages) ++
      cfg.packages.drop (pkgInsertIdx cfg.packages)) = none := by
    rw [List.take_append_drop]
    exact hnone
  simp only [injectPackages, injectLoop, injectStep, hfind]
  rfl

/-- Claim C3 counterexample: injecting package Foo into a manifest whose only
entry is FOO (same id up to letter case) does not replace that entry: the old
entry survives and the new entry is inserted alongside it. -/
theorem c3_upsert_identity_cex :
    injectPackages "/" [] c3CexCfg [c3CexPkg] =
      ([InjectEvent.writeBonsaiConfig c3CexResult], .ok c3CexResult) ∧
    c3CexResult.packages =
      [PNode.pkgNode "FOO" (some "1.0.0"), PNode.textNode "\n    ",
       PNode.pkgNode "Foo" (some "2.0.0")] :=
  ⟨rfl, rfl⟩

/-- Claim C3 witness: the exact-identity theorem applied to the case-differing
manifest. -/
theorem c3_upsert_identity_witness :
    injectPackages "/" [] c3CexCfg [c3CexPkg] =
      ([InjectEvent.writeBonsaiConfig c3CexResult], .ok c3CexResult) :=
  c3_upsert_identity "/" [] c3CexCfg c3CexPkg rfl

theorem foldl_pair_indep {α β γ : Type} (g : α → β → α) (h : γ → β → γ) (l : List β) :
    ∀ x y, l.foldl (fun pr b => (g pr.1 b, h pr.2 b)) (x, y) = (l.foldl g x, l.foldl h y) := by
  induction l with
  | nil => intro x y; rfl
  | cons b rest ih =>
    intro x y
    simp only [List.foldl_cons]
    exact ih (g x b) (h y b)

theorem foldl_eraseFirst_cons {α : Type} [DecidableEq α] (ms : List α) (x : α) :
    ∀ t : List α, (∀ a ∈ ms, a ≠ x) →
      ms.foldl (fun acc a => eraseFirst a acc) (x :: t) =
        x :: ms.foldl (fun acc a => eraseFirst a acc) t := by
  induction ms with
  | nil => intro t _; rfl
  | cons a ms2 ih =>
    intro t h
    simp only [List.foldl_cons]
    have hax : x ≠ a := fun he => (h a (by simp)) he.symm
    rw [show eraseFirst a (x :: t) = x :: eraseFirst a t from by simp [eraseFirst, hax]]
    exact ih (eraseFirst a t) (fun b hb => h b (by simp [hb]))

theorem eraseFold_filter {α : Type} [DecidableEq α] (p : α → Bool) (l : List α) :
    (l.filter p).foldl (fun acc a => eraseFirst a acc) l = l.filter (fun a => !(p a)) := by
  induction l with
  | nil => rfl
  | cons x t ih =>
    by_cases hx : p x = true
    · rw [List.filter_cons_of_pos hx]
      simp only [List.foldl_cons]
      rw [show eraseFirst x (x :: t) = t from by simp [eraseFirst]]
      rw [ih, List.filter_cons_of_neg (by simp [hx])]
    · rw [List.filter_cons_of_neg hx]
      rw [foldl_eraseFirst_cons (t.filter p) x t ?_]
      · rw [ih, List.filter_cons_of_pos (by simp [hx])]
      · intro a ha he
        rw [he] at ha
        exact hx (List.mem_filter.mp ha).2

theorem refsFold_filter (ms : List AssemblyLocation) :
    ∀ ar : List AssemblyReference,
      ms.foldl (fun ar a =>
          match alocRemovedName a with
          | some nm => ar.filter fun r => decide (r.assemblyName ≠ nm)
          | none => ar) ar =
        ar.filter fun r => decide (r.assemblyName ∉ ms.filterMap alocRemovedName) := by
  induction ms with
  | nil =>
    intro ar
    simp
  | cons a ms2 ih =>
    intro ar
    simp only [List.foldl_cons]
    rcases hr : alocRemovedName a with _ | nm
    · rw [ih, List.filterMap_cons, hr]
    · rw [ih, List.filter_filter, List.filterMap_cons, hr]
      refine List.filter_congr ?_
      intro r _
      by_cases h1 : r.assemblyName = nm <;> by_cases h2 : r.assemblyName ∈ ms2.filterMap alocRemovedName <;>
        simp [h1, h2]

theorem cascadeAssembly_filter (frag : String) (alocs : List AssemblyLocation)
    (arefs : List AssemblyReference) :
    cascadeAssembly frag alocs arefs =
      (alocs.filter (fun a => !(locMatches frag a)),
       arefs.filter fun r => decide (r.assemblyName ∉
         (alocs.filter (locMatches frag)).filterMap alocRemovedName)) := by
  unfold cascadeAssembly
  rw [foldl_pair_indep (fun al a => eraseFirst a al)
      (fun ar a =>
        match alocRemovedName a with
        | some nm => ar.filter fun r => decide (r.assemblyName ≠ nm)
        | none => ar)
      (alocs.filter (locMatches frag)) alocs arefs]
  rw [eraseFold_filter (locMatches frag) alocs, refsFold_filter (alocs.filter (locMatches frag)) arefs]

theorem cascadeFolders_filter (frag : String) (lfs : List LibraryFolder) :
    cascadeFolders frag lfs = lfs.filter (fun f => !(folderMatches frag f)) :=
  eraseFold_filter (folderMatches frag) lfs

theorem translateBs_append (a b : String) : translateBs (a ++ b) = translateBs a ++ translateBs b := by
  apply String.ext
  simp [translateBs, String.data_append]

theorem map_trChar_id (d : List Char) (h : ∀ c ∈ d, c ≠ '\\') : d.map trChar = d := by
  induction d with
  | nil => rfl
  | cons c t ih =>
    simp only [List.map_cons]
    rw [show trChar c = c from by simp [trChar, h c (by simp)],
      ih (fun b hb => h b (by simp [hb]))]

theorem translateBs_no_bs (s : String) (h : ∀ c ∈ s.data, c ≠ '\\') : translateBs s = s :=
  String.ext (map_trChar_id s.data h)

theorem replacePackagePathLocal_eq (sep rid rver : String)
    (hsep : sep = "/" ∨ sep = "\\")
    (h1 : ∀ c ∈ rid.data, c ≠ '\\') (h2 : ∀ c ∈ rver.data, c ≠ '\\') :
    replacePackagePathLocal sep rid rver = "Packages/" ++ rid ++ "." ++ rver ++ "/" := by
  unfold replacePackagePathLocal packageDirRel
  rw [translateBs_append, translateBs_append, translateBs_append, translateBs_append,
    translateBs_no_bs rid h1, translateBs_no_bs rver h2,
    show translateBs "Packages" = "Packages" from rfl,
    show translateBs "." = "." from rfl]
  have hs : translateBs sep = "/" := by
    rcases hsep with h | h <;> subst h <;> rfl
  rw [hs]
  apply String.ext
  simp [String.data_append]

/-- Claim C2 (amended): an Upsert call replacing an existing manifest entry
with identifier pid and version over computes the on-disk removal path
fragment "Packages/" ++ pid ++ "." ++ over ++ "/" — root-relative, so carrying
the Packages directory segment, with forward slashes regardless of platform
separator style — and the cascade then removes exactly the assembly-location
records whose backslash-normalized location starts with that fragment,
together with every assembly-reference record sharing the assembly name of a
removed location, and exactly the library-folder records whose normalized path
starts with the fragment; all records not matching are left unchanged. -/
theorem c2_upsert_cascade (sep : String) (hsep : sep = "/" ∨ sep = "\\")
    (disk : List String) (cfg : BonsaiConfig) (pid over nver : String)
    (hid : pid ≠ "")
    (hidbs : ∀ c ∈ pid.data, c ≠ '\\') (hoverbs : ∀ c ∈ over.data, c ≠ '\\')
    (hover : over ≠ "")
    (hfind : findPkgNode pid cfg.packages = some (pid, some over)) :
    replacePackagePathLocal sep pid over = "Packages/" ++ pid ++ "." ++ over ++ "/" ∧
    ∀ evs cfg2, injectPackages sep disk cfg [⟨pid, nver⟩] = (evs, .ok cfg2) →
      cfg2.assemblyLocations = cfg.assemblyLocations.filter
        (fun a => !(locMatches (replacePackagePathLocal sep pid over) a)) ∧
      cfg2.assemblyReferences = cfg.assemblyReferences.filter
        (fun r => decide (r.assemblyName ∉
          (cfg.assemblyLocations.filter
            (locMatches (replacePackagePathLocal sep pid over))).filterMap alocRemovedName)) ∧
      cfg2.libraryFolders = cfg.libraryFolders.filter
        (fun f => !(folderMatches (replacePackagePathLocal sep pid over) f)) := by
  refine ⟨replacePackagePathLocal_eq sep pid over hsep hidbs hoverbs, ?_⟩
  have hfind2 : findPkgNode pid (cfg.packages.take (pkgInsertIdx cfg.packages) ++
      cfg.packages.drop (pkgInsertIdx cfg.packages)) = some (pid, some over) := by
    rw [List.take_append_drop]
    exact hfind
  have key : (injectPackages sep disk cfg [⟨pid, nver⟩]).2 =
      .ok (BonsaiConfig.mk
        (replaceFirstPkg pid (PNode.pkgNode pid (some nver))
            (cfg.packages.take (pkgInsertIdx cfg.packages)) ++
          cfg.packages.drop (pkgInsertIdx cfg.packages))
        (cascadeAssembly (replacePackagePathLocal sep pid over)
          cfg.assemblyLocations cfg.assemblyReferences).1
        (cascadeAssembly (replacePackagePathLocal sep pid over)
          cfg.assemblyLocations cfg.assemblyReferences).2
        (cascadeFolders (replacePackagePathLocal sep pid over) cfg.libraryFolders)) := by
    simp only [injectPackages, injectLoop, injectStep, hfind2, if_neg hid, if_neg hover,
      if_neg (show ¬ toUpperS pid ≠ toUpperS pid from by simp)]
  intro evs cfg2 h
  have h2 : Except.ok cfg2 = (injectPackages sep disk cfg [⟨pid, nver⟩]).2 := by
    rw [h]
  rw [key] at h2
  obtain rfl := (Except.ok.inj h2)
  rw [cascadeAssembly_filter, cascadeFolders_filter]
  exact ⟨rfl, rfl, rfl⟩

/-- Claim C2 counterexample: records keyed by the fragment the claim names
(without the Packages directory segment) are not matched by the cascade: with
an assembly location at Foo.1.0.0/lib/Foo.dll, its reference, and a library
folder Foo.1.0.0/lib, upserting Foo 2.0.0 over Foo 1.0.0 leaves all three in
place, because the computed fragment is Packages/Foo.1.0.0/ rather than
Foo.1.0.0/. -/
theorem c2_upsert_cascade_cex :
    (injectPackages "/" [] c2CexCfg [c2CexPkg]).2 =
      .ok (BonsaiConfig.mk
        [PNode.pkgNode "Foo" (some "2.0.0")]
        [{ assemblyName := some "FooAsm", location := "Foo.1.0.0/lib/Foo.dll" }]
        [{ assemblyName := "FooAsm" }]
        [{ folderPath := "Foo.1.0.0/lib" }]) ∧
    strLeads "Foo.1.0.0/" (translateBs "Foo.1.0.0/lib/Foo.dll") = true := by
  exact ⟨rfl, by decide⟩

/-- Claim C2 witness: the cascade theorem applied with the backslash separator
to a manifest holding matching records in both separator styles and unrelated
records; the matching ones are removed and the unrelated ones survive. -/
theorem c2_upsert_cascade_witness :
    replacePackagePathLocal "\\" "Foo" "1.0.0" = "Packages/Foo.1.0.0/" ∧
    (injectPackages "\\" [] c2WitCfg [c2CexPkg]).2.map (fun c => c.assemblyLocations) =
      .ok [{ assemblyName := some "BarAsm", location := "Packages/Bar.1.0.0/lib/Bar.dll" }] ∧
    (injectPackages "\\" [] c2WitCfg [c2CexPkg]).2.map (fun c => c.assemblyReferences) =
      .ok [{ assemblyName := "BarAsm" }] ∧
    (injectPackages "\\" [] c2WitCfg [c2CexPkg]).2.map (fun c => c.libraryFolders) =
      .ok [{ folderPath := "Packages\\Bar.1.0.0\\lib" }] := by
  have h := c2_upsert_cascade "\\" (Or.inr rfl) [] c2WitCfg "Foo" "1.0.0" "2.0.0"
    (by decide) (by decide) (by decide) (by decide) rfl
  have hfrag : replacePackagePathLocal "\\" "Foo" "1.0.0" = "Packages/Foo.1.0.0/" := by
    rw [h.1]
    rfl
  obtain ⟨ha, hr, hl⟩ := h.2 (injectPackages "\\" [] c2WitCfg [c2CexPkg]).1
    (BonsaiConfig.mk
      [PNode.pkgNode "Foo" (some "2.0.0")]
      [{ assemblyName := some "BarAsm", location := "Packages/Bar.1.0.0/lib/Bar.dll" }]
      [{ assemblyName := "BarAsm" }]
      [{ folderPath := "Packages\\Bar.1.0.0\\lib" }]) rfl
  refine ⟨hfrag, ?_, ?_, ?_⟩ <;> rw [show (injectPackages "\\" [] c2WitCfg [c2CexPkg]).2 =
      .ok (BonsaiConfig.mk
        [PNode.pkgNode "Foo" (some "2.0.0")]
        [{ assemblyName := some "BarAsm", location := "Packages/Bar.1.0.0/lib/Bar.dll" }]
        [{ assemblyName := "BarAsm" }]
        [{ folderPath := "Packages\\Bar.1.0.0\\lib" }]) from rfl] <;> rfl
